import Mathlib

/-!
Verification of the Folder Wizard move-and-log engine (folder_wizard.py).

The Python source is shallowly embedded: the filesystem seen by
`os.path.exists` / `shutil.move` in per-file processing is a list of
existing file paths, while the rollback engine (which only needs file
identity at paths) uses a functional map from paths to file ids.
Python strings are Lean `String`s; `datetime` values are integers.
Directory creation (`os.makedirs`) is not modelled: directory entries
never collide with the computed file targets in the properties below.
-/

/-- Last index of a character in a list, Python `str.rfind` (-1 when absent). -/
def pyRfind (l : List Char) (c : Char) : Int :=
  match (l.enum.filter (fun p => p.2 = c)).getLast? with
  | Option.none => -1
  | Option.some p => (p.1 : Int)

/-- `os.path.splitext` (posixpath): the extension starts at the last dot that
comes after the last path separator, unless every character between the
separator and that dot is itself a dot (leading-dot filenames have no
extension). -/
def splitext (p : String) : String × String :=
  let l := p.data
  let sepIdx := pyRfind l '/'
  let dotIdx := pyRfind l '.'
  let hasStem := (List.range l.length).any
    (fun i => decide (sepIdx < (i : Int) ∧ (i : Int) < dotIdx) && !(l.getD i ' ' == '.'))
  if sepIdx < dotIdx && hasStem then
    (String.mk (l.take dotIdx.toNat), String.mk (l.drop dotIdx.toNat))
  else (p, "")

/-- `os.path.join` for two components (posix semantics). -/
def pyJoin (a b : String) : String :=
  if b.data.head? = Option.some '/' then b
  else if a = "" ∨ a.data.getLast? = Option.some '/' then a ++ b
  else a ++ "/" ++ b

/-- Worker for `pySplit`: scan the text, emitting the accumulated fragment
whenever the (nonempty) separator `s0 :: ss` is a prefix of the rest.  The
scan consumes at least one character per step, so fuel equal to the text
length makes the fuel bound unreachable. -/
def pySplitAux (s0 : Char) (ss : List Char) : Nat → List Char → List Char → List (List Char)
  | _, [], acc => [acc.reverse]
  | 0, _ :: _, acc => [acc.reverse]
  | fuel + 1, c :: rest, acc =>
    if (s0 :: ss).isPrefixOf (c :: rest) then
      acc.reverse :: pySplitAux s0 ss fuel (rest.drop ss.length) []
    else
      pySplitAux s0 ss fuel rest (c :: acc)

/-- Python `str.split(sep)` for a nonempty separator: split on each
non-overlapping, leftmost occurrence.  (For `sep = ""` Python raises
`ValueError`; callers guard that case, the value returned here is unused.) -/
def pySplit (s sep : String) : List String :=
  match sep.data with
  | [] => [s]
  | s0 :: ss => (pySplitAux s0 ss s.data.length s.data []).map String.mk

/-- Worker for `pyReplaceEmpty`: drop every non-overlapping, leftmost
occurrence of the (nonempty) pattern `p0 :: ps`; fuelled like `pySplitAux`. -/
def pyReplaceAux (p0 : Char) (ps : List Char) : Nat → List Char → List Char
  | _, [] => []
  | 0, l => l
  | fuel + 1, c :: rest =>
    if (p0 :: ps).isPrefixOf (c :: rest) then
      pyReplaceAux p0 ps fuel (rest.drop ps.length)
    else
      c :: pyReplaceAux p0 ps fuel rest

/-- Python `s.replace(pattern, "")`: remove every occurrence of `pattern`
from `s` (for an empty pattern Python returns `s` unchanged). -/
def pyReplaceEmpty (s pattern : String) : String :=
  match pattern.data with
  | [] => s
  | p0 :: ps => String.mk (pyReplaceAux p0 ps s.data.length s.data)

/-- Reference decimal-digit rendering of a natural number, used to reason
about core's fuelled `Nat.repr`. -/
def decRepr (n : Nat) : List Char :=
  if n < 10 then [Nat.digitChar n]
  else decRepr (n / 10) ++ [Nat.digitChar (n % 10)]
decreasing_by
  exact Nat.div_lt_self (by omega) (by omega)

theorem decRepr_lt {n : Nat} (h : n < 10) : decRepr n = [Nat.digitChar n] := by
  rw [decRepr]
  simp [h]

theorem decRepr_ge {n : Nat} (h : ¬ n < 10) :
    decRepr n = decRepr (n / 10) ++ [Nat.digitChar (n % 10)] := by
  rw [decRepr]
  simp [h]

theorem decRepr_ne_nil (n : Nat) : decRepr n ≠ [] := by
  by_cases h : n < 10
  · rw [decRepr_lt h]
    simp
  · rw [decRepr_ge h]
    simp

theorem toDigitsCore_eq_decRepr (fuel : Nat) :
    ∀ (n : Nat) (ds : List Char), n < fuel →
      Nat.toDigitsCore 10 fuel n ds = decRepr n ++ ds := by
  induction fuel with
  | zero => intro n ds h; omega
  | succ f ih =>
    intro n ds h
    rw [Nat.toDigitsCore]
    by_cases h10 : n / 10 = 0
    · have hn : n < 10 := by omega
      simp only [h10, if_true]
      rw [decRepr_lt hn]
      simp [Nat.mod_eq_of_lt hn]
    · have hn : ¬ n < 10 := by omega
      have hdn : n / 10 < n := Nat.div_lt_self (by omega) (by omega)
      have hlt : n / 10 < f := by omega
      simp only [h10, if_false]
      rw [ih (n / 10) _ hlt, decRepr_ge hn]
      simp

theorem digitChar_inj_lt :
    ∀ m, m < 10 → ∀ n, n < 10 → Nat.digitChar m = Nat.digitChar n → m = n := by
  decide

theorem decRepr_inj : ∀ m n : Nat, decRepr m = decRepr n → m = n := by
  intro m
  induction m using Nat.strong_induction_on with
  | _ m ih =>
    intro n h
    by_cases hm : m < 10 <;> by_cases hn : n < 10
    · rw [decRepr_lt hm, decRepr_lt hn] at h
      simp only [List.cons.injEq] at h
      exact digitChar_inj_lt m hm n hn h.1
    · rw [decRepr_lt hm, decRepr_ge hn] at h
      have hl := congrArg List.length h
      simp only [List.length_append, List.length_cons, List.length_nil] at hl
      have : decRepr (n / 10) = [] := List.length_eq_zero.mp (by omega)
      exact absurd this (decRepr_ne_nil _)
    · rw [decRepr_ge hm, decRepr_lt hn] at h
      have hl := congrArg List.length h
      simp only [List.length_append, List.length_cons, List.length_nil] at hl
      have : decRepr (m / 10) = [] := List.length_eq_zero.mp (by omega)
      exact absurd this (decRepr_ne_nil _)
    · rw [decRepr_ge hm, decRepr_ge hn] at h
      have hlen : (decRepr (m / 10)).length = (decRepr (n / 10)).length := by
        have hl := congrArg List.length h
        simp only [List.length_append, List.length_cons, List.length_nil] at hl
        omega
      obtain ⟨h1, h2⟩ := List.append_inj h hlen
      have hdiv : m / 10 = n / 10 :=
        ih (m / 10) (Nat.div_lt_self (by omega) (by omega)) (n / 10) h1
      have hmod : m % 10 = n % 10 := by
        have hc : Nat.digitChar (m % 10) = Nat.digitChar (n % 10) := by
          simpa using h2
        exact digitChar_inj_lt _ (Nat.mod_lt _ (by omega)) _ (Nat.mod_lt _ (by omega)) hc
      omega

theorem natRepr_inj : ∀ m n : Nat, Nat.repr m = Nat.repr n → m = n := by
  intro m n h
  apply decRepr_inj
  have hm := toDigitsCore_eq_decRepr (m + 1) m [] (by omega)
  have hn := toDigitsCore_eq_decRepr (n + 1) n [] (by omega)
  simp only [Nat.repr, Nat.toDigits, List.asString] at h
  rw [hm, hn] at h
  simpa using congrArg String.data h

/-- The candidate path tried by the conflict loop: `f"{base} ({counter}){ext}"`. -/
def candidate (base ext : String) (n : Nat) : String :=
  base ++ " (" ++ Nat.repr n ++ ")" ++ ext

/-- The `while os.path.exists(...)` counter loop of
`FolderWizard.handle_filename_conflict`.  The Python loop is unbounded; the
fuel `fs.length + 1` is provably sufficient (`conflictLoop_spec` below). -/
def conflictLoop (fs : List String) (base ext : String) : Nat → Nat → Nat
  | 0, counter => counter
  | fuel + 1, counter =>
    if candidate base ext counter ∈ fs then conflictLoop fs base ext fuel (counter + 1)
    else counter

/-- `FolderWizard.handle_filename_conflict`: return the target unchanged when
no file exists there, otherwise append `" (n)"` to the stem for the first
counter `n` (starting at 1) whose candidate path does not exist.  The
filesystem is the list `fs` of existing paths. -/
def handle_filename_conflict (fs : List String) (targetPath : String) : String :=
  if targetPath ∈ fs then
    let be := splitext targetPath
    candidate be.1 be.2 (conflictLoop fs be.1 be.2 (fs.length + 1) 1)
  else targetPath

theorem candidate_inj (base ext : String) :
    ∀ m n : Nat, candidate base ext m = candidate base ext n → m = n := by
  intro m n h
  apply natRepr_inj
  unfold candidate at h
  have hd := congrArg String.data h
  simp only [String.data_append] at hd
  have h1 := List.append_cancel_right (List.append_cancel_right hd)
  have h2 := List.append_cancel_left h1
  exact String.ext h2

theorem exists_free_candidate (fs : List String) (base ext : String) :
    ∃ k, k ≤ fs.length ∧ candidate base ext (1 + k) ∉ fs := by
  by_contra hcon
  push_neg at hcon
  have hsub : (Finset.range (fs.length + 1)).image (fun k => candidate base ext (1 + k)) ⊆
      fs.toFinset := by
    intro x hx
    simp only [Finset.mem_image, Finset.mem_range] at hx
    obtain ⟨k, hk, rfl⟩ := hx
    rw [List.mem_toFinset]
    exact hcon k (by omega)
  have hcard := Finset.card_le_card hsub
  rw [Finset.card_image_of_injective _ (fun a b hab => by
    have := candidate_inj base ext (1 + a) (1 + b) hab
    omega)] at hcard
  simp only [Finset.card_range] at hcard
  have := fs.toFinset_card_le
  omega

theorem conflictLoop_spec (fs : List String) (base ext : String) :
    ∀ (fuel start : Nat), (∃ k, k < fuel ∧ candidate base ext (start + k) ∉ fs) →
      start ≤ conflictLoop fs base ext fuel start ∧
      candidate base ext (conflictLoop fs base ext fuel start) ∉ fs ∧
      ∀ m, start ≤ m → m < conflictLoop fs base ext fuel start → candidate base ext m ∈ fs := by
  intro fuel
  induction fuel with
  | zero => intro start ⟨k, hk, _⟩; omega
  | succ f ih =>
    intro start ⟨k, hk, hfree⟩
    rw [conflictLoop]
    by_cases hs : candidate base ext start ∈ fs
    · rw [if_pos hs]
      have hk0 : k ≠ 0 := by
        intro h0
        rw [h0, Nat.add_zero] at hfree
        exact hfree hs
      obtain ⟨k', rfl⟩ : ∃ k', k = k' + 1 := ⟨k - 1, by omega⟩
      have hrec := ih (start + 1) ⟨k', by omega, by
        have : start + 1 + k' = start + (k' + 1) := by omega
        rw [this]
        exact hfree⟩
      refine ⟨by omega, hrec.2.1, ?_⟩
      intro m hm1 hm2
      rcases Nat.eq_or_lt_of_le hm1 with heq | hlt
      · rw [← heq]; exact hs
      · exact hrec.2.2 m (by omega) hm2
    · rw [if_neg hs]
      exact ⟨Nat.le_refl _, hs, fun m h1 h2 => absurd h2 (by omega)⟩

/-- Characterization of `handle_filename_conflict` on an occupied target:
the result is the candidate for the least free counter `n ≥ 1`. -/
theorem handle_filename_conflict_spec (fs : List String) (targetPath : String)
    (hmem : targetPath ∈ fs) :
    ∃ n, 1 ≤ n ∧
      handle_filename_conflict fs targetPath =
        candidate (splitext targetPath).1 (splitext targetPath).2 n ∧
      candidate (splitext targetPath).1 (splitext targetPath).2 n ∉ fs ∧
      ∀ m, 1 ≤ m → m < n → candidate (splitext targetPath).1 (splitext targetPath).2 m ∈ fs := by
  obtain ⟨k, hk, hfree⟩ := exists_free_candidate fs (splitext targetPath).1 (splitext targetPath).2
  have hspec := conflictLoop_spec fs (splitext targetPath).1 (splitext targetPath).2
    (fs.length + 1) 1 ⟨k, by omega, hfree⟩
  refine ⟨conflictLoop fs (splitext targetPath).1 (splitext targetPath).2 (fs.length + 1) 1,
    hspec.1, ?_, hspec.2.1, hspec.2.2⟩
  unfold handle_filename_conflict
  simp only [hmem, if_true]

theorem handle_filename_conflict_not_mem (fs : List String) (targetPath : String) :
    handle_filename_conflict fs targetPath ∉ fs := by
  by_cases hmem : targetPath ∈ fs
  · obtain ⟨n, _, heq, hfree, _⟩ := handle_filename_conflict_spec fs targetPath hmem
    rw [heq]
    exact hfree
  · unfold handle_filename_conflict
    rw [if_neg hmem]
    exact hmem

/-- One recorded file relocation, as appended by `OperationLogger.log_file_move`. -/
structure Move where
  source : String
  destination : String
  timestamp : String
deriving DecidableEq, Repr

/-- The JSON record of one operation (`operation_logs/<id>.json`). -/
structure LogData where
  timestamp : String
  status : String
  moves : List Move
deriving DecidableEq, Repr

/-- The `operation_logs` directory: operation id to persisted record. -/
abbrev Store := List (String × LogData)

/-- Rewrite one record in the store (the full-file rewrite of the log JSON). -/
def storeSet : Store → String → LogData → Store
  | [], _, _ => []
  | (k', v') :: rest, k, v =>
    if k' = k then (k', v) :: rest else (k', v') :: storeSet rest k v

/-- `OperationLogger.log_file_move`: if the log file for `operationId`
exists, append the move and write the whole record back; otherwise the call
silently does nothing (there is no error path in the source). -/
def log_file_move (store : Store) (operationId source destination ts : String) : Store :=
  match store.lookup operationId with
  | Option.none => store
  | Option.some ld =>
    storeSet store operationId { ld with moves := ld.moves ++ [⟨source, destination, ts⟩] }

theorem lookup_storeSet_self (store : Store) (k : String) (v : LogData) :
    (store.lookup k).isSome → (storeSet store k v).lookup k = Option.some v := by
  induction store with
  | nil => intro h; simp [List.lookup] at h
  | cons kv rest ih =>
    intro h
    obtain ⟨k', v'⟩ := kv
    by_cases hk : k' = k
    · subst hk
      simp [storeSet, List.lookup]
    · rw [storeSet, if_neg hk]
      have hbe : (k == k') = false := by
        rw [beq_eq_false_iff_ne]
        exact fun h' => hk h'.symm
      simp only [List.lookup, hbe] at h ⊢
      exact ih h

/-- The filesystem as seen by the rollback engine: each existing path holds
a file identity. -/
abbrev FS := String → Option Nat

/-- `shutil.move src dst`: the destination now holds what the source held;
the source no longer exists. -/
def fsMove (fs : FS) (src dst : String) : FS :=
  fun p => if p = dst then fs src else if p = src then Option.none else fs p

/-- The reverse-replay loop of `FolderWizard.rollback_operation` (lines
154-162): iterate the Move list in reverse; for each move whose recorded
destination still exists, move it back onto the recorded source; skip it
otherwise. -/
def rollbackMoves (fs : FS) (moves : List Move) : FS :=
  moves.reverse.foldl
    (fun fs m => if (fs m.destination).isSome then fsMove fs m.destination m.source else fs) fs

/-- `FolderWizard.rollback_operation`: fails (returns `false`, filesystem
untouched) when the operation id is unknown or the log status is not
`"completed"`; otherwise replays the move list in reverse. -/
def rollback_operation (store : Store) (operationId : String) (fs : FS) : Bool × FS :=
  match store.lookup operationId with
  | Option.none => (false, fs)
  | Option.some ld =>
    if ld.status ≠ "completed" then (false, fs)
    else (true, rollbackMoves fs ld.moves)

/-- `FolderWizard.cancel_operation`: when a current operation exists, invoke
`rollback_operation` on its (possibly partial) log. -/
def cancel_operation (currentOperationId : Option String) (store : Store) (fs : FS) :
    Bool × FS :=
  match currentOperationId with
  | Option.none => (false, fs)
  | Option.some operationId => rollback_operation store operationId fs

/-- One forward move of the engine applied to the filesystem. -/
def execMoves (fs : FS) (moves : List Move) : FS :=
  moves.foldl (fun fs m => fsMove fs m.source m.destination) fs

/-- A recorded move was successful at its point in the run: the source
existed and the (conflict-resolved) destination did not. -/
def moveOk (fs : FS) (m : Move) : Bool :=
  (fs m.source).isSome && (fs m.destination).isNone

/-- Every move in the list was successful in sequence from `fs`. -/
def validRun (fs : FS) : List Move → Bool
  | [] => true
  | m :: ms => moveOk fs m && validRun (fsMove fs m.source m.destination) ms

theorem rollbackMoves_nil (fs : FS) : rollbackMoves fs [] = fs := rfl

theorem rollbackMoves_cons (fs : FS) (m : Move) (ms : List Move) :
    rollbackMoves fs (m :: ms) =
      (if ((rollbackMoves fs ms) m.destination).isSome then
        fsMove (rollbackMoves fs ms) m.destination m.source
      else rollbackMoves fs ms) := by
  unfold rollbackMoves
  rw [List.reverse_cons, List.foldl_append]
  simp

/-- Round-trip: a valid forward run followed by reverse replay restores the
filesystem exactly. -/
theorem rollbackMoves_execMoves (ms : List Move) :
    ∀ fs : FS, validRun fs ms = true → rollbackMoves (execMoves fs ms) ms = fs := by
  induction ms with
  | nil => intro fs _; rfl
  | cons m ms ih =>
    intro fs h
    rw [validRun, Bool.and_eq_true] at h
    obtain ⟨hok, hrest⟩ := h
    rw [moveOk, Bool.and_eq_true] at hok
    obtain ⟨hsrc, hdst⟩ := hok
    have hne : m.source ≠ m.destination := by
      intro he
      rw [he] at hsrc
      rw [Option.isSome_iff_exists] at hsrc
      obtain ⟨f, hf⟩ := hsrc
      rw [Option.isNone_iff_eq_none] at hdst
      rw [hf] at hdst
      exact Option.noConfusion hdst
    have hexec : execMoves fs (m :: ms) = execMoves (fsMove fs m.source m.destination) ms := by
      unfold execMoves
      simp
    rw [hexec, rollbackMoves_cons, ih _ hrest]
    have hdst_ex : (fsMove fs m.source m.destination m.destination).isSome = true := by
      unfold fsMove
      simp [hsrc]
    rw [if_pos hdst_ex]
    funext p
    simp only [fsMove]
    by_cases hp1 : p = m.source
    · subst hp1
      simp
    · rw [if_neg hp1]
      by_cases hp2 : p = m.destination
      · subst hp2
        rw [if_pos rfl]
        rw [Option.isNone_iff_eq_none] at hdst
        exact hdst.symm
      · rw [if_neg hp2, if_neg hp2, if_neg hp1]

/-- `FolderWizard.remove_chars`: for each non-empty entry, strip it of
surrounding whitespace and delete every occurrence from the filename;
empty entries are skipped. -/
def remove_chars (filename : String) (charsToRemove : List String) : String :=
  charsToRemove.foldl
    (fun fn c => if c ≠ "" then pyReplaceEmpty fn c.trim else fn) filename

/-- The delimiter loop of `process_down_movement` (lines 254-259): apply each
delimiter in turn, splitting every current fragment and flattening in order.
Python's `str.split` raises `ValueError` on an empty separator, which can
only happen when there is at least one fragment to split. -/
def splitPartsAux : List String → List String → Except String (List String)
  | parts, [] => Except.ok parts
  | parts, d :: ds =>
    if parts ≠ [] ∧ d = "" then Except.error "ValueError: empty separator"
    else splitPartsAux (parts.flatMap (fun p => pySplit p d)) ds

/-- Name fragments of `process_down_movement`, starting from the single
processed stem. -/
def splitParts (delimiters : List String) (name : String) : Except String (List String) :=
  splitPartsAux [name] delimiters

/-- Fragments computed for one file in downward mode: remove characters from
the stem, then split on the delimiters in order. -/
def down_fragments (file : String) (delimiters charsToRemove : List String) :
    Except String (List String) :=
  splitParts delimiters (remove_chars (splitext file).1 charsToRemove)

/-- Target computation of `process_down_movement` (lines 261-267): every
fragment except the last names a nested subdirectory created in order under
the file's current directory; the last fragment plus the original extension
is the new base name.  Returns (subdirectory fragments, new filename, full
target path).  An empty fragment list would raise `IndexError` at
`parts[-1]`. -/
def down_compute (root file : String) (delimiters charsToRemove : List String) :
    Except String (List String × String × String) :=
  match down_fragments file delimiters charsToRemove with
  | Except.error e => Except.error e
  | Except.ok parts =>
    match parts.getLast? with
    | Option.none => Except.error "IndexError"
    | Option.some last =>
      let newFilename := last ++ (splitext file).2
      Except.ok (parts.dropLast, newFilename,
        pyJoin (parts.dropLast.foldl pyJoin root) newFilename)

/-- Per-file body of `process_down_movement` (lines 247-273): compute the
target; when it differs from the current path, resolve conflicts, move the
file and append to the operation log; otherwise do nothing for this file. -/
def down_process_file (fs : List String) (log : List Move) (root file : String)
    (delimiters charsToRemove : List String) (ts : String) :
    Except String (List String × List Move) :=
  match down_compute root file delimiters charsToRemove with
  | Except.error e => Except.error e
  | Except.ok (_, _, targetPath) =>
    let currentPath := pyJoin root file
    if currentPath ≠ targetPath then
      let resolved := handle_filename_conflict fs targetPath
      Except.ok ((fs.erase currentPath) ++ [resolved],
        log ++ [⟨currentPath, resolved, ts⟩])
    else Except.ok (fs, log)

theorem pySplitAux_ne_nil (s0 : Char) (ss : List Char) :
    ∀ (fuel : Nat) (l acc : List Char), pySplitAux s0 ss fuel l acc ≠ [] := by
  intro fuel
  induction fuel with
  | zero =>
    intro l acc
    cases l <;> simp [pySplitAux]
  | succ f ih =>
    intro l acc
    cases l with
    | nil => simp [pySplitAux]
    | cons c rest =>
      rw [pySplitAux]
      by_cases hp : (s0 :: ss).isPrefixOf (c :: rest)
      · rw [if_pos hp]
        simp
      · rw [if_neg hp]
        exact ih rest (c :: acc)

theorem pySplit_ne_nil (s sep : String) : pySplit s sep ≠ [] := by
  unfold pySplit
  cases hd : sep.data with
  | nil => simp
  | cons s0 ss =>
    simp only [ne_eq, List.map_eq_nil_iff]
    exact pySplitAux_ne_nil s0 ss s.data.length s.data []

theorem flatMap_pySplit_ne_nil (d : String) (ps : List String) (h : ps ≠ []) :
    ps.flatMap (fun p => pySplit p d) ≠ [] := by
  cases ps with
  | nil => exact absurd rfl h
  | cons q qs =>
    rw [List.flatMap_cons]
    intro hc
    rw [List.append_eq_nil] at hc
    exact pySplit_ne_nil q d hc.1

theorem splitPartsAux_ok (ds : List String) (hd : "" ∉ ds) :
    ∀ parts : List String,
      splitPartsAux parts ds =
        Except.ok (ds.foldl (fun ps d => ps.flatMap (fun p => pySplit p d)) parts) := by
  induction ds with
  | nil => intro parts; rfl
  | cons d ds ih =>
    intro parts
    have hdne : d ≠ "" := fun he => hd (he ▸ List.mem_cons_self d ds)
    rw [splitPartsAux, if_neg (fun hcon => hdne hcon.2), List.foldl_cons]
    exact ih (fun hm => hd (List.mem_cons_of_mem d hm)) _

theorem foldl_pySplit_ne_nil (ds : List String) :
    ∀ parts : List String, parts ≠ [] →
      ds.foldl (fun ps d => ps.flatMap (fun p => pySplit p d)) parts ≠ [] := by
  induction ds with
  | nil => intro parts h; exact h
  | cons d ds ih =>
    intro parts h
    rw [List.foldl_cons]
    exact ih _ (flatMap_pySplit_ne_nil d parts h)

theorem splitPartsAux_err (ds : List String) (hmem : "" ∈ ds) :
    ∀ parts : List String, parts ≠ [] →
      splitPartsAux parts ds = Except.error "ValueError: empty separator" := by
  induction ds with
  | nil => exact absurd hmem (List.not_mem_nil "")
  | cons d ds ih =>
    intro parts hne
    by_cases hd : d = ""
    · rw [splitPartsAux, if_pos ⟨hne, hd⟩]
    · rw [splitPartsAux, if_neg (fun hcon => hd hcon.2)]
      have hmem' : "" ∈ ds := by
        cases hmem with
        | head => exact absurd rfl hd
        | tail _ h => exact h
      exact ih hmem' _ (flatMap_pySplit_ne_nil d parts hne)

/-- `target_level` of `process_up_movement` (line 366):
`max(0, len(path_parts) - levels)` in Python integer arithmetic. -/
def upTargetLevel (pathParts : List String) (levels : Int) : Nat :=
  (max 0 ((pathParts.length : Int) - levels)).toNat

/-- Per-file body of `process_up_movement` (lines 362-385): when the walk
directory lies deeper than the target level, join the first `target_level`
relative segments onto the operation root, resolve filename conflicts, move
the file and log the move.  `walkDir` is the absolute walk directory and
`pathParts` its path relative to the operation root, split on the
separator (`["."]` for the root itself). -/
def up_process_file (fs : List String) (log : List Move) (root walkDir : String)
    (pathParts : List String) (levels : Int) (file ts : String) :
    List String × List Move :=
  if pathParts.length > upTargetLevel pathParts levels then
    let targetDir := (pathParts.take (upTargetLevel pathParts levels)).foldl pyJoin root
    let currentPath := pyJoin walkDir file
    let targetPath := handle_filename_conflict fs (pyJoin targetDir file)
    ((fs.erase currentPath) ++ [targetPath], log ++ [⟨currentPath, targetPath, ts⟩])
  else (fs, log)

/-- Values stored in the `self.stats` dictionary. -/
inductive PyVal where
  | vnone : PyVal
  | vint : Int → PyVal
  | vtime : Int → PyVal
  | vdur : Int → PyVal
  | vlist : Nat → PyVal
  | vdict : PyVal
deriving DecidableEq, Repr

/-- Python dict assignment `d[k] = v`: replace the value when the key is
present, append the key otherwise. -/
def dictSet (d : List (String × PyVal)) (k : String) (v : PyVal) : List (String × PyVal) :=
  if (d.lookup k).isSome then d.map (fun kv => if kv.1 = k then (k, v) else kv)
  else d ++ [(k, v)]

/-- The engine attributes touched by start/pause/resume. -/
structure EngineState where
  is_paused : Bool
  stats : List (String × PyVal)
  startTime : Option Int
  currentOperationId : Option String
deriving DecidableEq, Repr

/-- `FolderWizard.__init__` (lines 91-107): the initial stats dictionary
carries pause bookkeeping keys. -/
def init_state : EngineState :=
  { is_paused := false
    startTime := Option.none
    currentOperationId := Option.none
    stats := [("total_files", PyVal.vint 0), ("processed_files", PyVal.vint 0),
      ("errors", PyVal.vlist 0), ("start_time", PyVal.vnone), ("end_time", PyVal.vnone),
      ("pause_time", PyVal.vnone), ("total_pause_duration", PyVal.vdur 0),
      ("success_count", PyVal.vint 0), ("error_types", PyVal.vdict)] }

/-- `FolderWizard.start_operation` (lines 594-604): create a fresh operation
id and REPLACE `self.stats` by a dictionary holding only the five keys
listed in the source. -/
def start_operation (st : EngineState) (operationId : String) (now : Int)
    (totalFiles : Nat) : EngineState :=
  { st with
    currentOperationId := Option.some operationId
    startTime := Option.some now
    stats := [("total_files", PyVal.vint totalFiles), ("processed_files", PyVal.vint 0),
      ("errors", PyVal.vlist 0), ("start_time", PyVal.vtime now),
      ("end_time", PyVal.vnone)] }

/-- `FolderWizard.pause_operation` (lines 614-620). -/
def pause_operation (st : EngineState) (now : Int) : EngineState :=
  if st.is_paused = false then
    { st with is_paused := true, stats := dictSet st.stats "pause_time" (PyVal.vtime now) }
  else st

/-- Python `+` on the stats values, as used by
`self.stats['total_pause_duration'] += pause_duration`. -/
def pyAdd : PyVal → PyVal → Option PyVal
  | PyVal.vdur a, PyVal.vdur b => Option.some (PyVal.vdur (a + b))
  | _, _ => Option.none

/-- `FolderWizard.resume_operation` (lines 622-629): read `pause_time`,
compute the pause duration, then read-modify-write
`total_pause_duration`.  A dictionary read of a missing key raises
`KeyError`. -/
def resume_operation (st : EngineState) (now : Int) : Except String EngineState :=
  if st.is_paused then
    match st.stats.lookup "pause_time" with
    | Option.none => Except.error "KeyError: pause_time"
    | Option.some pv =>
      match pv with
      | PyVal.vtime t =>
        match st.stats.lookup "total_pause_duration" with
        | Option.none => Except.error "KeyError: total_pause_duration"
        | Option.some tpd =>
          match pyAdd tpd (PyVal.vdur (now - t)) with
          | Option.none => Except.error "TypeError"
          | Option.some total =>
            Except.ok { st with
              is_paused := false
              stats := dictSet (dictSet st.stats "total_pause_duration" total)
                "pause_time" PyVal.vnone }
      | _ => Except.error "TypeError"
  else Except.ok st

/-- C1: cancelling a run after 3 of its files were moved does NOT restore
them: `cancel_operation` invokes `rollback_operation` on the current
`in_progress` log, but `rollback_operation` refuses any log whose status is
not `"completed"` (lines 150-152), returns `false` and moves nothing, so all
3 files stay at their destinations.  This contradicts the claim (and the
program's own help text promising automatic rollback on cancellation). -/
theorem c1_cancel_does_not_restore :
    (let fs : FS := fun p =>
      if p = "/r/1.txt" then Option.some 1 else
      if p = "/r/2.txt" then Option.some 2 else
      if p = "/r/3.txt" then Option.some 3 else Option.none
    let store : Store := [("op1",
      { timestamp := "20240101_000000", status := "in_progress",
        moves := [⟨"/r/a/1.txt", "/r/1.txt", "t1"⟩, ⟨"/r/a/2.txt", "/r/2.txt", "t2"⟩,
          ⟨"/r/a/3.txt", "/r/3.txt", "t3"⟩] })]
    cancel_operation (Option.some "op1") store fs = (false, fs) ∧
      fs "/r/1.txt" = Option.some 1 ∧ fs "/r/2.txt" = Option.some 2 ∧
      fs "/r/3.txt" = Option.some 3 ∧ fs "/r/a/1.txt" = Option.none) :=
  ⟨rfl, rfl, rfl, rfl, rfl⟩

/-- C2: for a completed operation whose log records a sequence of successful
moves, replaying the log in reverse from the exact post-run filesystem (no
external interference) restores every file to its original source path:
the filesystem after rollback is the initial one. -/
theorem c2_rollback_roundtrip (fs₀ : FS) (store : Store) (operationId : String)
    (ld : LogData) (h1 : store.lookup operationId = Option.some ld)
    (h2 : ld.status = "completed") (h3 : validRun fs₀ ld.moves = true) :
    rollback_operation store operationId (execMoves fs₀ ld.moves) = (true, fs₀) := by
  have hns : ¬ ld.status ≠ "completed" := fun hc => hc h2
  have hstep : rollback_operation store operationId (execMoves fs₀ ld.moves) =
      (if ld.status ≠ "completed" then (false, execMoves fs₀ ld.moves)
       else (true, rollbackMoves (execMoves fs₀ ld.moves) ld.moves)) := by
    unfold rollback_operation
    rw [h1]
  rw [hstep, if_neg hns, rollbackMoves_execMoves ld.moves fs₀ h3]

theorem c2_rollback_roundtrip_witness :
    (let fs₀ : FS := fun p =>
      if p = "/r/a/x.txt" then Option.some 1 else
      if p = "/r/a/y.txt" then Option.some 2 else Option.none
    let ld : LogData :=
      { timestamp := "t0"
        status := "completed"
        moves := [⟨"/r/a/x.txt", "/r/x.txt", "t1"⟩, ⟨"/r/a/y.txt", "/r/y.txt", "t2"⟩] }
    ([("op2", ld)] : Store).lookup "op2" = Option.some ld ∧
      ld.status = "completed" ∧ validRun fs₀ ld.moves = true ∧
      rollback_operation [("op2", ld)] "op2" (execMoves fs₀ ld.moves) = (true, fs₀)) :=
  ⟨rfl, rfl, rfl, c2_rollback_roundtrip _ _ "op2" _ rfl rfl rfl⟩

/-- C3: conflict resolution returns a non-existing target unchanged; on an
occupied target it returns the stem suffixed with `" (n)"` for the least
free counter `n ≥ 1`; in all cases the returned path does not exist at call
time. -/
theorem c3_conflict_resolution (fs : List String) (targetPath : String) :
    handle_filename_conflict fs targetPath ∉ fs ∧
    (targetPath ∉ fs → handle_filename_conflict fs targetPath = targetPath) ∧
    (targetPath ∈ fs → ∃ n, 1 ≤ n ∧
      handle_filename_conflict fs targetPath =
        candidate (splitext targetPath).1 (splitext targetPath).2 n ∧
      candidate (splitext targetPath).1 (splitext targetPath).2 n ∉ fs ∧
      ∀ m, 1 ≤ m → m < n →
        candidate (splitext targetPath).1 (splitext targetPath).2 m ∈ fs) := by
  refine ⟨handle_filename_conflict_not_mem fs targetPath, ?_, ?_⟩
  · intro h
    unfold handle_filename_conflict
    rw [if_neg h]
  · intro h
    exact handle_filename_conflict_spec fs targetPath h

theorem c3_conflict_resolution_witness :
    handle_filename_conflict ["/d/f.txt", "/d/f (1).txt"] "/d/f.txt" ∉
      ["/d/f.txt", "/d/f (1).txt"] ∧
    handle_filename_conflict ["/d/f.txt", "/d/f (1).txt"] "/d/f.txt" = "/d/f (2).txt" ∧
    handle_filename_conflict ["/d/f.txt"] "/d/new.txt" = "/d/new.txt" :=
  ⟨(c3_conflict_resolution ["/d/f.txt", "/d/f (1).txt"] "/d/f.txt").1, by decide,
    (c3_conflict_resolution ["/d/f.txt"] "/d/new.txt").2.1 (by decide)⟩

/-- C4 counterexample: `log_file_move` on an unknown operation id does not
fail at all — the function has no error path; it returns normally and the
move is silently discarded (the store is unchanged), contrary to the claimed
`NotFoundError`. -/
theorem c4_counterexample :
    log_file_move [] "op1" "/a/x.txt" "/b/x.txt" "t0" = ([] : Store) := rfl

/-- C4 amended: a call with an unknown operation id silently does nothing
(no error is raised and the move is discarded); a call with a known id
appends a Move with the given source and destination and persists the full
updated record. -/
theorem c4_append_amended (store : Store) (operationId source destination ts : String) :
    (store.lookup operationId = Option.none →
      log_file_move store operationId source destination ts = store) ∧
    (∀ ld, store.lookup operationId = Option.some ld →
      (log_file_move store operationId source destination ts).lookup operationId =
        Option.some { ld with moves := ld.moves ++ [⟨source, destination, ts⟩] }) := by
  constructor
  · intro h
    unfold log_file_move
    rw [h]
  · intro ld h
    unfold log_file_move
    rw [h]
    apply lookup_storeSet_self
    rw [h]
    rfl

theorem c4_append_amended_witness :
    (let ld : LogData := { timestamp := "t0", status := "in_progress", moves := [] }
    ([("op1", ld)] : Store).lookup "op1" = Option.some ld ∧
      (log_file_move [("op1", ld)] "op1" "/a/x.txt" "/b/x.txt" "t1").lookup "op1" =
        Option.some
          { timestamp := "t0"
            status := "in_progress"
            moves := [⟨"/a/x.txt", "/b/x.txt", "t1"⟩] }) :=
  ⟨rfl,
    (c4_append_amended [("op1", { timestamp := "t0", status := "in_progress", moves := [] })]
      "op1" "/a/x.txt" "/b/x.txt" "t1").2
      { timestamp := "t0", status := "in_progress", moves := [] } rfl⟩

/-- C5: in upward mode the target directory is obtained by removing `levels`
trailing segments from the relative directory segments, floored at the
operation root: the kept prefix is `take (length - levels)`, and whenever
`levels` is at least the directory depth the target is exactly the root
(empty segment list) — never a directory above it. -/
theorem c5_up_target (pathParts : List String) (levels : Int)
    (h1 : 1 ≤ levels) (hne : pathParts ≠ []) :
    pathParts.length > upTargetLevel pathParts levels ∧
    pathParts.take (upTargetLevel pathParts levels) =
      pathParts.take (pathParts.length - levels.toNat) ∧
    ((pathParts.length : Int) ≤ levels →
      pathParts.take (upTargetLevel pathParts levels) = []) := by
  have hlen : 0 < pathParts.length := List.length_pos.mpr hne
  have heq : upTargetLevel pathParts levels = pathParts.length - levels.toNat := by
    unfold upTargetLevel
    omega
  refine ⟨by omega, by rw [heq], ?_⟩
  intro hle
  rw [heq]
  have hz : pathParts.length - levels.toNat = 0 := by omega
  rw [hz, List.take_zero]

theorem c5_up_target_witness :
    1 ≤ (2 : Int) ∧ (["2024", "01"] : List String) ≠ [] ∧
    (["2024", "01"] : List String).take (upTargetLevel ["2024", "01"] 2) = [] :=
  ⟨by decide, by decide, (c5_up_target ["2024", "01"] 2 (by decide) (by decide)).2.2 (by decide)⟩

/-- C6: in downward mode (no removals, no empty delimiter) the delimiters are
applied in sequence — each splits every current fragment and the results are
flattened in order; all fragments except the last name nested subdirectories
created in order under the file's current directory, and the last fragment
plus the original extension is the new base name. -/
theorem c6_down_transform (root file : String) (delimiters : List String)
    (hd : "" ∉ delimiters) :
    ∃ parts last, down_fragments file delimiters [] = Except.ok parts ∧
      parts = delimiters.foldl (fun ps d => ps.flatMap (fun p => pySplit p d))
        [(splitext file).1] ∧
      parts.getLast? = Option.some last ∧
      down_compute root file delimiters [] =
        Except.ok (parts.dropLast, last ++ (splitext file).2,
          pyJoin (parts.dropLast.foldl pyJoin root) (last ++ (splitext file).2)) := by
  have hok : down_fragments file delimiters [] =
      Except.ok (delimiters.foldl (fun ps d => ps.flatMap (fun p => pySplit p d))
        [(splitext file).1]) := by
    unfold down_fragments splitParts
    exact splitPartsAux_ok delimiters hd [(splitext file).1]
  have hne : delimiters.foldl (fun ps d => ps.flatMap (fun p => pySplit p d))
      [(splitext file).1] ≠ [] :=
    foldl_pySplit_ne_nil delimiters [(splitext file).1] (by simp)
  obtain ⟨last, hlast⟩ : ∃ last,
      (delimiters.foldl (fun ps d => ps.flatMap (fun p => pySplit p d))
        [(splitext file).1]).getLast? = Option.some last := by
    cases h : (delimiters.foldl (fun ps d => ps.flatMap (fun p => pySplit p d))
        [(splitext file).1]).getLast? with
    | none => exact absurd (List.getLast?_eq_none_iff.mp h) hne
    | some l => exact ⟨l, rfl⟩
  refine ⟨_, last, hok, rfl, hlast, ?_⟩
  unfold down_compute
  simp only [hok, hlast]

theorem c6_down_transform_witness :
    ("" ∉ (["_"] : List String)) ∧
    down_compute "/r" "2024_01_meeting.txt" ["_"] [] =
      Except.ok (["2024", "01"], "meeting.txt", "/r/2024/01/meeting.txt") ∧
    (∃ parts last, down_fragments "2024_01_meeting.txt" ["_"] [] = Except.ok parts ∧
      parts = (["_"] : List String).foldl (fun ps d => ps.flatMap (fun p => pySplit p d))
        [(splitext "2024_01_meeting.txt").1] ∧
      parts.getLast? = Option.some last ∧
      down_compute "/r" "2024_01_meeting.txt" ["_"] [] =
        Except.ok (parts.dropLast, last ++ (splitext "2024_01_meeting.txt").2,
          pyJoin (parts.dropLast.foldl pyJoin "/r")
            (last ++ (splitext "2024_01_meeting.txt").2))) :=
  ⟨by decide, rfl, c6_down_transform "/r" "2024_01_meeting.txt" ["_"] (by decide)⟩

/-- C7: in downward mode, a file whose splitting yields a single fragment
(zero non-final fragments) gets no new subdirectory — its computed target is
a direct child of its current directory — and when the computed target path
equals the current path the run moves nothing and appends nothing to the
operation log for that file. -/
theorem c7_down_noop (fs : List String) (log : List Move) (root file : String)
    (delimiters charsToRemove : List String) (ts : String) (p : String)
    (hp : down_fragments file delimiters charsToRemove = Except.ok [p]) :
    down_compute root file delimiters charsToRemove =
      Except.ok ([], p ++ (splitext file).2, pyJoin root (p ++ (splitext file).2)) ∧
    (pyJoin root file = pyJoin root (p ++ (splitext file).2) →
      down_process_file fs log root file delimiters charsToRemove ts =
        Except.ok (fs, log)) := by
  have hc : down_compute root file delimiters charsToRemove =
      Except.ok ([], p ++ (splitext file).2, pyJoin root (p ++ (splitext file).2)) := by
    unfold down_compute
    rw [hp]
    rfl
  refine ⟨hc, ?_⟩
  intro heq
  unfold down_process_file
  simp only [hc]
  have hnn : ¬ pyJoin root file ≠ pyJoin root (p ++ (splitext file).2) := fun hc' => hc' heq
  rw [if_neg hnn]

theorem c7_down_noop_witness :
    down_fragments "meeting.txt" ["_"] [] = Except.ok ["meeting"] ∧
    pyJoin "/r" "meeting.txt" = pyJoin "/r" ("meeting" ++ (splitext "meeting.txt").2) ∧
    down_process_file ["/r/meeting.txt"] [] "/r" "meeting.txt" ["_"] [] "t" =
      Except.ok (["/r/meeting.txt"], []) :=
  ⟨rfl, rfl,
    (c7_down_noop ["/r/meeting.txt"] [] "/r" "meeting.txt" ["_"] [] "t" "meeting" rfl).2 rfl⟩

/-- C8 counterexample: an empty string in the delimiter list is NOT skipped:
Python's `str.split("")` raises `ValueError`, so processing of the file
fails, contrary to the claim that an empty delimiter has no effect and never
causes a failure. -/
theorem c8_counterexample :
    splitParts [""] "abc" = Except.error "ValueError: empty separator" ∧
    down_process_file [] [] "/r" "a_b.txt" [""] [] "t" =
      Except.error "ValueError: empty separator" := ⟨rfl, rfl⟩

/-- C8 amended: an empty string in the removal-substring list is skipped and
has no effect, but an empty string in the delimiter list makes the
processing of every file fail with `ValueError` (recorded as a per-file
error by the engine), rather than being skipped or matching everything. -/
theorem c8_amended (s : String) (l1 l2 : List String) (name : String)
    (delimiters : List String) (hmem : "" ∈ delimiters) :
    remove_chars s (l1 ++ "" :: l2) = remove_chars s (l1 ++ l2) ∧
    splitParts delimiters name = Except.error "ValueError: empty separator" := by
  constructor
  · unfold remove_chars
    rw [List.foldl_append, List.foldl_append, List.foldl_cons]
    simp
  · exact splitPartsAux_err delimiters hmem [name] (by simp)

theorem c8_amended_witness :
    ("" ∈ (["_", ""] : List String)) ∧
    remove_chars "abc" (["x"] ++ "" :: ["y"]) = remove_chars "abc" (["x"] ++ ["y"]) ∧
    splitParts ["_", ""] "abc" = Except.error "ValueError: empty separator" :=
  ⟨by decide, (c8_amended "abc" ["x"] ["y"] "abc" ["_", ""] (by decide)).1,
    (c8_amended "abc" ["x"] ["y"] "abc" ["_", ""] (by decide)).2⟩

/-- C9: during a started run, pause followed immediately by resume does NOT
behave as claimed: `start_operation` replaces the stats dictionary by one
without the `total_pause_duration` key, so `resume_operation`'s
read-modify-write of that key raises `KeyError` instead of accumulating the
paused duration.  (The pause itself leaves `processed_files` unchanged.) -/
theorem c9_resume_keyerror :
    resume_operation (pause_operation (start_operation init_state "op1" 100 10) 105) 107 =
      Except.error "KeyError: total_pause_duration" ∧
    (pause_operation (start_operation init_state "op1" 100 10) 105).stats.lookup
      "processed_files" = Option.some (PyVal.vint 0) := ⟨rfl, rfl⟩

/-- C10: in upward mode a file directly in the operation root (walk
directory = root, relative path `"."`) has computed target equal to its
current path; there is no same-path no-op guard, so the conflict check sees
the file itself, renames it in place with the `" (n)"` suffix for the least
free `n ≥ 1`, performs that move and appends it to the operation log. -/
theorem c10_up_rename_in_place (fs : List String) (log : List Move) (root : String)
    (levels : Int) (file ts : String) (hl : 1 ≤ levels)
    (hmem : pyJoin root file ∈ fs) :
    ∃ n, 1 ≤ n ∧
      candidate (splitext (pyJoin root file)).1 (splitext (pyJoin root file)).2 n ∉ fs ∧
      candidate (splitext (pyJoin root file)).1 (splitext (pyJoin root file)).2 n ≠
        pyJoin root file ∧
      up_process_file fs log root root ["."] levels file ts =
        ((fs.erase (pyJoin root file)) ++
          [candidate (splitext (pyJoin root file)).1 (splitext (pyJoin root file)).2 n],
          log ++ [⟨pyJoin root file,
            candidate (splitext (pyJoin root file)).1 (splitext (pyJoin root file)).2 n,
            ts⟩]) ∧
      ∀ m, 1 ≤ m → m < n →
        candidate (splitext (pyJoin root file)).1 (splitext (pyJoin root file)).2 m ∈ fs := by
  obtain ⟨n, hn1, heq, hfree, hleast⟩ := handle_filename_conflict_spec fs (pyJoin root file) hmem
  have htl : upTargetLevel ["."] levels = 0 := by
    unfold upTargetLevel
    simp only [List.length_cons, List.length_nil]
    omega
  refine ⟨n, hn1, hfree, fun hEq => hfree (by rw [hEq]; exact hmem), ?_, hleast⟩
  unfold up_process_file
  rw [htl]
  rw [if_pos (by simp)]
  simp only [List.take_zero, List.foldl_nil]
  rw [heq]

theorem c10_up_rename_in_place_witness :
    1 ≤ (1 : Int) ∧ pyJoin "/r" "a.txt" ∈ (["/r/a.txt"] : List String) ∧
    (∃ n, 1 ≤ n ∧
      candidate (splitext (pyJoin "/r" "a.txt")).1 (splitext (pyJoin "/r" "a.txt")).2 n ∉
        (["/r/a.txt"] : List String) ∧
      candidate (splitext (pyJoin "/r" "a.txt")).1 (splitext (pyJoin "/r" "a.txt")).2 n ≠
        pyJoin "/r" "a.txt" ∧
      up_process_file ["/r/a.txt"] [] "/r" "/r" ["."] 1 "a.txt" "t" =
        (((["/r/a.txt"] : List String).erase (pyJoin "/r" "a.txt")) ++
          [candidate (splitext (pyJoin "/r" "a.txt")).1 (splitext (pyJoin "/r" "a.txt")).2 n],
          [] ++ [⟨pyJoin "/r" "a.txt",
            candidate (splitext (pyJoin "/r" "a.txt")).1 (splitext (pyJoin "/r" "a.txt")).2 n,
            "t"⟩]) ∧
      ∀ m, 1 ≤ m → m < n →
        candidate (splitext (pyJoin "/r" "a.txt")).1 (splitext (pyJoin "/r" "a.txt")).2 m ∈
          (["/r/a.txt"] : List String)) :=
  ⟨by decide, by decide,
    c10_up_rename_in_place ["/r/a.txt"] [] "/r" 1 "a.txt" "t" (by decide) (by decide)⟩
